import Mathlib

/-!
Verification of the Transform3x3 core (ofxsTransform3x3.cpp) against its
natural-language specification.  Real-valued quantities of the program are
modelled over `ℚ`: the program computes field arithmetic on doubles, and the
properties verified here are exact-arithmetic properties of those formulas.
-/

namespace Transform3x3

/-- Modelled from the spec (§3 Data Model): 3×3 homogeneous transform matrix,
9 row-major coefficients `a`..`i`.  The struct itself lives in
`ofxsMatrix2D.h`, which is outside the provided sources. -/
structure Matrix3x3 where
  a : ℚ
  b : ℚ
  c : ℚ
  d : ℚ
  e : ℚ
  f : ℚ
  g : ℚ
  h : ℚ
  i : ℚ
deriving DecidableEq

/-- Modelled from the spec (§3 Data Model): homogeneous point (x, y, z). -/
structure Point3D where
  x : ℚ
  y : ℚ
  z : ℚ
deriving DecidableEq

/-- Modelled from the spec (§4.1): standard 3×3 matrix product
(`ofxsMatrix2D.h` is outside the provided sources). -/
def Matrix3x3.mul (m n : Matrix3x3) : Matrix3x3 :=
  ⟨m.a * n.a + m.b * n.d + m.c * n.g,
   m.a * n.b + m.b * n.e + m.c * n.h,
   m.a * n.c + m.b * n.f + m.c * n.i,
   m.d * n.a + m.e * n.d + m.f * n.g,
   m.d * n.b + m.e * n.e + m.f * n.h,
   m.d * n.c + m.e * n.f + m.f * n.i,
   m.g * n.a + m.h * n.d + m.i * n.g,
   m.g * n.b + m.h * n.e + m.i * n.h,
   m.g * n.c + m.h * n.f + m.i * n.i⟩

/-- Modelled from the spec (§4.2): a matrix applied to a homogeneous point
(`ofxsMatrix2D.h` is outside the provided sources). -/
def Matrix3x3.apply (m : Matrix3x3) (p : Point3D) : Point3D :=
  ⟨m.a * p.x + m.b * p.y + m.c * p.z,
   m.d * p.x + m.e * p.y + m.f * p.z,
   m.g * p.x + m.h * p.y + m.i * p.z⟩

/-- The identity homography (what the spec calls "the identity matrix"). -/
def idMat : Matrix3x3 := ⟨1, 0, 0, 0, 1, 0, 0, 0, 1⟩

/-- The substitute matrix the source writes on a failed sample
(lines 222-230, 301-309, 1080-1088): all coefficients 0 except `i = 1`.
It maps every pixel to the origin; it is not the identity. -/
def dummyMatrix : Matrix3x3 := ⟨0, 0, 0, 0, 0, 0, 0, 0, 1⟩

/-- `OfxRectD`: axis-aligned rectangle (x1, y1, x2, y2). -/
structure OfxRectD where
  x1 : ℚ
  y1 : ℚ
  x2 : ℚ
  y2 : ℚ
deriving DecidableEq

/-- `kOfxFlagInfiniteMin` is `INT_MIN` in the OFX headers. -/
def kOfxFlagInfiniteMin : ℚ := -(2 ^ 31)

/-- `kOfxFlagInfiniteMax` is `INT_MAX` in the OFX headers. -/
def kOfxFlagInfiniteMax : ℚ := 2 ^ 31 - 1

/-- The sentinel unbounded rectangle on both axes. -/
def infiniteRectD : OfxRectD :=
  ⟨kOfxFlagInfiniteMin, kOfxFlagInfiniteMin, kOfxFlagInfiniteMax, kOfxFlagInfiniteMax⟩

/-- The array `OFX::Point3D p[4]` of transformed corners. -/
structure Corners where
  p0 : Point3D
  p1 : Point3D
  p2 : Point3D
  p3 : Point3D
deriving DecidableEq

/-- One iteration of the min/max scan of `ofxsTransformRegionFromPoints`
(lines 412-423): `if (v < lo) lo = v; else if (v > hi) hi = v;`. -/
def scanStep (lh : ℚ × ℚ) (v : ℚ) : ℚ × ℚ :=
  if v < lh.1 then (v, lh.2) else if lh.2 < v then (lh.1, v) else lh

/-- The same-z-sign condition of `ofxsTransformRegionFromPoints`
(lines 389-395): the source keeps two running flags `allpositive` and
`allnegative`; the branch guard `!allpositive && !allnegative` is exactly
the negation of this disjunction. -/
def sameZSign (p : Corners) : Prop :=
  (0 < p.p0.z ∧ 0 < p.p1.z ∧ 0 < p.p2.z ∧ 0 < p.p3.z) ∨
  (p.p0.z < 0 ∧ p.p1.z < 0 ∧ p.p2.z < 0 ∧ p.p3.z < 0)

instance (p : Corners) : Decidable (sameZSign p) := by
  unfold sameZSign; infer_instance

/-- `ofxsTransformRegionFromPoints` (lines 381-432): bounding box of the
transform of four homogeneous points. -/
def ofxsTransformRegionFromPoints (p : Corners) : OfxRectD :=
  if ¬ sameZSign p then
    -- the line at infinity crosses the source RoD (lines 397-402)
    ⟨kOfxFlagInfiniteMin, kOfxFlagInfiniteMin, kOfxFlagInfiniteMax, kOfxFlagInfiniteMax⟩
  else
    -- divide by z and scan for the bounds (lines 403-423)
    let xb := scanStep (scanStep (scanStep (p.p0.x / p.p0.z, p.p0.x / p.p0.z)
      (p.p1.x / p.p1.z)) (p.p2.x / p.p2.z)) (p.p3.x / p.p3.z)
    let yb := scanStep (scanStep (scanStep (p.p0.y / p.p0.z, p.p0.y / p.p0.z)
      (p.p1.y / p.p1.z)) (p.p2.y / p.p2.z)) (p.p3.y / p.p3.z)
    ⟨xb.1, yb.1, xb.2, yb.2⟩

/-- The four corners of a rectangle lifted to homogeneous (x, y, 1) and
pushed through a matrix (lines 442-445). -/
def transformedCorners (srcRoD : OfxRectD) (transform : Matrix3x3) : Corners :=
  ⟨transform.apply ⟨srcRoD.x1, srcRoD.y1, 1⟩,
   transform.apply ⟨srcRoD.x1, srcRoD.y2, 1⟩,
   transform.apply ⟨srcRoD.x2, srcRoD.y2, 1⟩,
   transform.apply ⟨srcRoD.x2, srcRoD.y1, 1⟩⟩

/-- `ofxsTransformRegionFromRoD` (lines 435-448): transforms the 4 corners of
`srcRoD` and returns both the transformed corner points (the `p[4]` out
parameter) and the resulting region. -/
def ofxsTransformRegionFromRoD (srcRoD : OfxRectD) (transform : Matrix3x3) :
    Corners × OfxRectD :=
  let p := transformedCorners srcRoD transform
  (p, ofxsTransformRegionFromPoints p)

/-! ### Helper lemmas on the min/max scan -/

theorem scanStep_minmax (lo hi v : ℚ) (hle : lo ≤ hi) :
    scanStep (lo, hi) v = (min lo v, max hi v) := by
  unfold scanStep
  dsimp only
  split_ifs with h1 h2
  · rw [min_eq_right h1.le, max_eq_left (h1.le.trans hle)]
  · rw [min_eq_left (hle.trans h2.le), max_eq_right h2.le]
  · rw [min_eq_left (not_lt.mp h1), max_eq_left (not_lt.mp h2)]

/-- The value of `ofxsTransformRegionFromPoints` when all four z have the
same strict sign: component-wise min/max of the four divided points. -/
theorem regionFromPoints_sameSign (p : Corners) (hs : sameZSign p) :
    ofxsTransformRegionFromPoints p =
      ⟨min (min (min (p.p0.x / p.p0.z) (p.p1.x / p.p1.z)) (p.p2.x / p.p2.z))
          (p.p3.x / p.p3.z),
       min (min (min (p.p0.y / p.p0.z) (p.p1.y / p.p1.z)) (p.p2.y / p.p2.z))
          (p.p3.y / p.p3.z),
       max (max (max (p.p0.x / p.p0.z) (p.p1.x / p.p1.z)) (p.p2.x / p.p2.z))
          (p.p3.x / p.p3.z),
       max (max (max (p.p0.y / p.p0.z) (p.p1.y / p.p1.z)) (p.p2.y / p.p2.z))
          (p.p3.y / p.p3.z)⟩ := by
  unfold ofxsTransformRegionFromPoints
  rw [if_neg (not_not_intro hs)]
  have hmm : ∀ u v : ℚ, min u v ≤ max u v :=
    fun u v => (min_le_left u v).trans (le_max_left u v)
  have hmm2 : ∀ u v w : ℚ, min (min u v) w ≤ max (max u v) w :=
    fun u v w => ((min_le_left _ _).trans (hmm u v)).trans (le_max_left _ _)
  rw [scanStep_minmax _ _ _ le_rfl, scanStep_minmax _ _ _ (hmm _ _),
      scanStep_minmax _ _ _ (hmm2 _ _ _), scanStep_minmax _ _ _ le_rfl,
      scanStep_minmax _ _ _ (hmm _ _), scanStep_minmax _ _ _ (hmm2 _ _ _)]

/-- The value of `ofxsTransformRegionFromPoints` when the z signs are mixed
(or some z is 0): the sentinel unbounded rectangle. -/
theorem regionFromPoints_mixedSign (p : Corners) (hs : ¬ sameZSign p) :
    ofxsTransformRegionFromPoints p = infiniteRectD := by
  unfold ofxsTransformRegionFromPoints infiniteRectD
  rw [if_pos hs]

/-- C2: for every rectangle and matrix, projecting the four corners through
the matrix and taking the bounding box gives: if all four homogeneous images
have z of one strict sign, the axis-aligned bounds of the four z-divided 2D
points; otherwise (mixed signs or a zero z) the sentinel unbounded rectangle
on both axes. -/
theorem C2_region_from_rod_cases (srcRoD : OfxRectD) (T : Matrix3x3) :
    (sameZSign (transformedCorners srcRoD T) →
      (ofxsTransformRegionFromRoD srcRoD T).2 =
        (let p := transformedCorners srcRoD T
         ⟨min (min (min (p.p0.x / p.p0.z) (p.p1.x / p.p1.z)) (p.p2.x / p.p2.z))
            (p.p3.x / p.p3.z),
          min (min (min (p.p0.y / p.p0.z) (p.p1.y / p.p1.z)) (p.p2.y / p.p2.z))
            (p.p3.y / p.p3.z),
          max (max (max (p.p0.x / p.p0.z) (p.p1.x / p.p1.z)) (p.p2.x / p.p2.z))
            (p.p3.x / p.p3.z),
          max (max (max (p.p0.y / p.p0.z) (p.p1.y / p.p1.z)) (p.p2.y / p.p2.z))
            (p.p3.y / p.p3.z)⟩)) ∧
    (¬ sameZSign (transformedCorners srcRoD T) →
      (ofxsTransformRegionFromRoD srcRoD T).2 = infiniteRectD) := by
  constructor
  · intro hs
    exact regionFromPoints_sameSign _ hs
  · intro hs
    exact regionFromPoints_mixedSign _ hs

/-- C2 witness: the identity matrix on the rectangle (0,0,2,1): all corner
images have z = 1 > 0 and the bounding box is the rectangle itself. -/
theorem C2_region_from_rod_cases_witness :
    sameZSign (transformedCorners ⟨0, 0, 2, 1⟩ idMat) ∧
    (ofxsTransformRegionFromRoD ⟨0, 0, 2, 1⟩ idMat).2 = ⟨0, 0, 2, 1⟩ := by
  have hs : sameZSign (transformedCorners ⟨0, 0, 2, 1⟩ idMat) := by
    left
    norm_num [transformedCorners, Matrix3x3.apply, idMat]
  refine ⟨hs, ?_⟩
  rw [(C2_region_from_rod_cases ⟨0, 0, 2, 1⟩ idMat).1 hs]
  norm_num [transformedCorners, Matrix3x3.apply, idMat, min_def, max_def]

/-- C10: the assertion at line 431 holds for every input: the folded
rectangle always satisfies x1 ≤ x2 and y1 ≤ y2, the mixed-sign / zero-z
sentinel case included. -/
theorem C10_region_from_points_ordered (p : Corners) :
    (ofxsTransformRegionFromPoints p).x1 ≤ (ofxsTransformRegionFromPoints p).x2 ∧
    (ofxsTransformRegionFromPoints p).y1 ≤ (ofxsTransformRegionFromPoints p).y2 := by
  by_cases hs : sameZSign p
  · rw [regionFromPoints_sameSign p hs]
    have hb : ∀ u v w r : ℚ, min (min (min u v) w) r ≤ max (max (max u v) w) r := by
      intro u v w r
      have h1 : min (min (min u v) w) r ≤ u :=
        ((min_le_left _ _).trans (min_le_left _ _)).trans (min_le_left _ _)
      have h2 : u ≤ max (max (max u v) w) r :=
        ((le_max_left u v).trans (le_max_left _ _)).trans (le_max_left _ _)
      exact h1.trans h2
    exact ⟨hb _ _ _ _, hb _ _ _ _⟩
  · rw [regionFromPoints_mixedSign p hs]
    constructor
    · norm_num [infiniteRectD, kOfxFlagInfiniteMin, kOfxFlagInfiniteMax]
    · norm_num [infiniteRectD, kOfxFlagInfiniteMin, kOfxFlagInfiniteMax]

/-! ### Temporal sampler: shutter (motion-blur) mode, lines 1051-1105

`getInverseTransformCanonical` is the virtual per-effect callback
`(time, amount, invert) ↦ optional matrix`; it is a parameter `tf` here.
`OFX::shutterRange` (ofxsShutter, outside the provided sources) only yields
the interval, so the model takes `tStart`/`tEnd` directly, and the
conversion matrices `ofxsMatCanonicalToPixel` / `ofxsMatPixelToCanonical`
(ofxsMatrix2D.h, outside the provided sources) are the parameters
`cToP` / `pToC`. -/

/-- Sample time of iteration `k` (line 1075). -/
def shutterSampleTime (tStart tEnd : ℚ) (n : ℕ) (k : ℕ) : ℚ :=
  if k = 0 then tStart else tStart + (k : ℚ) * (tEnd - tStart) / ((n : ℚ) - 1)

/-- The matrix stored at slot `k` by `getInverseTransforms` (lines 1076-1089):
on success the canonical transform sandwiched into pixel space, on failure
the all-zero-except-i dummy. -/
def shutterSample (tf : ℚ → ℚ → Bool → Option Matrix3x3) (cToP pToC : Matrix3x3)
    (invert : Bool) (tStart tEnd : ℚ) (n : ℕ) (k : ℕ) : Matrix3x3 :=
  match tf (shutterSampleTime tStart tEnd n k) 1 invert with
  | some M => (cToP.mul M).mul pToC
  | none => dummyMatrix

/-- `Transform3x3Plugin::getInverseTransforms` (lines 1051-1105): the filled
slot array together with the returned `invtransformsize`.  The running
`allequal` flag of the loop is equivalent to every slot comparing equal to
slot 0. -/
def getInverseTransforms (tf : ℚ → ℚ → Bool → Option Matrix3x3) (cToP pToC : Matrix3x3)
    (invert : Bool) (tStart tEnd : ℚ) (n : ℕ) : List Matrix3x3 × ℕ :=
  let samples := (List.range n).map (shutterSample tf cToP pToC invert tStart tEnd n)
  (samples,
   if ∀ k, k < n → shutterSample tf cToP pToC invert tStart tEnd n k =
       shutterSample tf cToP pToC invert tStart tEnd n 0 then 1 else n)

/-! ### Temporal sampler: directional-blur mode, lines 1107-1152

The slot arrays are `std::vector`s resized by the caller (line 280-281);
their pre-loop contents come from default construction outside the provided
sources, so the model takes the initial contents `init` / `initAmt` as
parameters. -/

/-- The loop state of `getInverseTransformsBlur`: the two slot arrays, the
used size and the running `allequal` flag. -/
structure BlurState where
  slots : ℕ → Matrix3x3
  amounts : ℕ → ℚ
  sz : ℕ
  allequal : Bool

/-- The blend amount of iteration `k` (lines 1127-1128):
`a = 1 - (k+1)/n`, `amt = amountFrom + (amountTo - amountFrom) * a`. -/
def blurAmount (amountFrom amountTo : ℚ) (n : ℕ) (k : ℕ) : ℚ :=
  amountFrom + (amountTo - amountFrom) * (1 - ((k : ℚ) + 1) / (n : ℚ))

/-- One iteration of `getInverseTransformsBlur` (lines 1125-1146).  On
failure nothing is stored (the sample is dropped).  On success the sample
and its raw amount are stored at index `sz`, but the `allequal` update
compares slot `i` (the loop index `k`) with slot 0 — exactly as the source
does at line 1136. -/
def blurStep (tf : ℚ → ℚ → Bool → Option Matrix3x3) (cToP pToC : Matrix3x3)
    (invert : Bool) (time amountFrom amountTo : ℚ) (n : ℕ)
    (s : BlurState) (k : ℕ) : BlurState :=
  match tf time (blurAmount amountFrom amountTo n k) invert with
  | none => s
  | some M =>
    let slots := Function.update s.slots s.sz ((cToP.mul M).mul pToC)
    let amounts := Function.update s.amounts s.sz (blurAmount amountFrom amountTo n k)
    ⟨slots, amounts, s.sz + 1, if slots k = slots 0 then s.allequal else false⟩

/-- `Transform3x3Plugin::getInverseTransformsBlur` (lines 1107-1152): the
final loop state together with the returned `invtransformsize`
(line 1147-1149: collapse to 1 when nonempty and `allequal`). -/
def getInverseTransformsBlur (tf : ℚ → ℚ → Bool → Option Matrix3x3) (cToP pToC : Matrix3x3)
    (invert : Bool) (time amountFrom amountTo : ℚ)
    (init : ℕ → Matrix3x3) (initAmt : ℕ → ℚ) (n : ℕ) : BlurState × ℕ :=
  let final := (List.range n).foldl
    (blurStep tf cToP pToC invert time amountFrom amountTo n) ⟨init, initAmt, 0, true⟩
  (final, if final.sz ≠ 0 ∧ final.allequal = true then 1 else final.sz)

/-- The samples actually produced: the used prefix of the slot array. -/
def blurProduced (s : BlurState) : List Matrix3x3 :=
  (List.range s.sz).map s.slots

/-! ### Helper lemmas on the blur fold -/

/-- After `m` iterations, the used prefix of the slot array is exactly the
list of successful samples of the first `m` iterations, in order. -/
theorem blur_foldl_produced (tf : ℚ → ℚ → Bool → Option Matrix3x3) (cToP pToC : Matrix3x3)
    (invert : Bool) (time amountFrom amountTo : ℚ)
    (init : ℕ → Matrix3x3) (initAmt : ℕ → ℚ) (n : ℕ) (m : ℕ) :
    (let s := (List.range m).foldl
        (blurStep tf cToP pToC invert time amountFrom amountTo n) ⟨init, initAmt, 0, true⟩
     blurProduced s =
       (List.range m).filterMap
         (fun j => (tf time (blurAmount amountFrom amountTo n j) invert).map
           (fun M => (cToP.mul M).mul pToC))) := by
  induction m with
  | zero => simp [blurProduced]
  | succ m ih =>
    dsimp only at ih ⊢
    rw [List.range_succ, List.foldl_append, List.foldl_cons, List.foldl_nil,
        List.filterMap_append]
    set s := (List.range m).foldl
        (blurStep tf cToP pToC invert time amountFrom amountTo n) ⟨init, initAmt, 0, true⟩
      with hs
    unfold blurStep
    cases hc : tf time (blurAmount amountFrom amountTo n m) invert with
    | none => simpa [hc] using ih
    | some M =>
      unfold blurProduced at ih ⊢
      dsimp only
      rw [List.range_succ, List.map_append]
      congr 1
      · rw [← ih]
        apply List.map_congr_left
        intro j hj
        have hjlt : j < s.sz := List.mem_range.mp hj
        exact Function.update_noteq hjlt.ne _ _
      · simp [hc, Function.update_same]

/-- After `m` all-successful iterations the size is `m` and the amount slots
hold the raw blend amounts of each iteration. -/
theorem blur_foldl_success (tf : ℚ → ℚ → Bool → Option Matrix3x3) (cToP pToC : Matrix3x3)
    (invert : Bool) (time amountFrom amountTo : ℚ)
    (init : ℕ → Matrix3x3) (initAmt : ℕ → ℚ) (n : ℕ) (m : ℕ)
    (hsucc : ∀ j, j < m → (tf time (blurAmount amountFrom amountTo n j) invert).isSome = true) :
    (let s := (List.range m).foldl
        (blurStep tf cToP pToC invert time amountFrom amountTo n) ⟨init, initAmt, 0, true⟩
     s.sz = m ∧ ∀ k, k < m → s.amounts k = blurAmount amountFrom amountTo n k) := by
  induction m with
  | zero => simp
  | succ m ih =>
    dsimp only at ih ⊢
    rw [List.range_succ, List.foldl_append, List.foldl_cons, List.foldl_nil]
    obtain ⟨ihsz, ihamt⟩ := ih (fun j hj => hsucc j (hj.trans (Nat.lt_succ_self m)))
    set s := (List.range m).foldl
        (blurStep tf cToP pToC invert time amountFrom amountTo n) ⟨init, initAmt, 0, true⟩
      with hs
    unfold blurStep
    cases hc : tf time (blurAmount amountFrom amountTo n m) invert with
    | none =>
      exfalso
      have := hsucc m (Nat.lt_succ_self m)
      rw [hc] at this
      simp at this
    | some M =>
      refine ⟨by simpa using ihsz, ?_⟩
      intro k hk
      rcases Nat.lt_succ_iff_lt_or_eq.mp hk with hk' | hk'
      · have hne : k ≠ s.sz := by rw [ihsz]; exact hk'.ne
        dsimp only
        rw [Function.update_noteq hne]
        exact ihamt k hk'
      · subst hk'
        dsimp only
        rw [ihsz, Function.update_same]

/-- C1 (amended): when the per-time callback fails at a sampled time, the
shutter-mode sampler stores the dummy matrix (all coefficients 0 except the
homogeneous 1 — not the identity) at that slot and keeps the slot-array
length unchanged; the directional-blur sampler produces exactly the
successful samples in order, dropping every failed one. -/
theorem C1_failure_handling (tf : ℚ → ℚ → Bool → Option Matrix3x3) (cToP pToC : Matrix3x3)
    (invert : Bool) (tStart tEnd : ℚ) (n : ℕ) (k : ℕ) (hk : k < n)
    (hfail : tf (shutterSampleTime tStart tEnd n k) 1 invert = none) :
    ((getInverseTransforms tf cToP pToC invert tStart tEnd n).1[k]? = some dummyMatrix ∧
     (getInverseTransforms tf cToP pToC invert tStart tEnd n).1.length = n) ∧
    (∀ time amountFrom amountTo init initAmt,
      blurProduced (getInverseTransformsBlur tf cToP pToC invert time amountFrom amountTo
          init initAmt n).1 =
        (List.range n).filterMap
          (fun j => (tf time (blurAmount amountFrom amountTo n j) invert).map
            (fun M => (cToP.mul M).mul pToC))) := by
  refine ⟨⟨?_, ?_⟩, ?_⟩
  · unfold getInverseTransforms
    dsimp only
    rw [List.getElem?_map, List.getElem?_range hk]
    simp [shutterSample, hfail]
  · unfold getInverseTransforms
    simp
  · intro time amountFrom amountTo init initAmt
    exact blur_foldl_produced tf cToP pToC invert time amountFrom amountTo init initAmt n n

/-- C1 witness: a callback failing exactly at time 0 with 2 shutter samples
over [0, 1]: slot 0 receives the dummy matrix and the array keeps length 2. -/
theorem C1_failure_handling_witness :
    (0 < 2) ∧
    ((fun (t : ℚ) (_ : ℚ) (_ : Bool) => if t = 0 then none else some idMat)
        (shutterSampleTime 0 1 2 0) 1 false = none) ∧
    (getInverseTransforms (fun (t : ℚ) (_ : ℚ) (_ : Bool) => if t = 0 then none else some idMat)
        idMat idMat false 0 1 2).1[0]? = some dummyMatrix := by
  have hfail : (fun (t : ℚ) (_ : ℚ) (_ : Bool) => if t = 0 then none else some idMat)
      (shutterSampleTime 0 1 2 0) 1 false = none := by
    simp [shutterSampleTime]
  exact ⟨by norm_num, hfail,
    ((C1_failure_handling _ idMat idMat false 0 1 2 0 (by norm_num) hfail).1).1⟩

/-- C1 counterexample: the claim says the shutter-mode substitute is the
identity matrix; with an always-failing callback the substituted sample is
the all-zero-except-i dummy, which differs from the identity. -/
theorem C1_failure_handling_counterexample :
    (getInverseTransforms (fun _ _ _ => none) idMat idMat false 0 1 1).1[0]? =
      some dummyMatrix ∧ dummyMatrix ≠ idMat := by
  constructor
  · unfold getInverseTransforms
    dsimp only
    rw [List.getElem?_map, List.getElem?_range (by norm_num)]
    unfold shutterSample
    simp
  · intro h
    have := congrArg Matrix3x3.a h
    norm_num [dummyMatrix, idMat] at this

/-- C4 (amended): the directional-blur sampler iterates over the whole
allocation capacity `n` (1000 in the render path, not 8): with an
always-succeeding callback it produces `n` samples, the raw amount recorded
for iteration `k` is `amountFrom + (amountTo - amountFrom) * (1 - (k+1)/n)`
(the alpha weight before gamma correction), the final iteration produces
`amountFrom` itself exactly, and `amountTo` is never produced. -/
theorem C4_dirblur_spacing (tf : ℚ → ℚ → Bool → Option Matrix3x3) (cToP pToC : Matrix3x3)
    (invert : Bool) (time amountFrom amountTo : ℚ)
    (init : ℕ → Matrix3x3) (initAmt : ℕ → ℚ) (n : ℕ) (hn : 1 ≤ n)
    (hsucc : ∀ j, j < n →
      (tf time (blurAmount amountFrom amountTo n j) invert).isSome = true)
    (hne : amountFrom ≠ amountTo) :
    (getInverseTransformsBlur tf cToP pToC invert time amountFrom amountTo
        init initAmt n).1.sz = n ∧
    (∀ k, k < n →
      (getInverseTransformsBlur tf cToP pToC invert time amountFrom amountTo
          init initAmt n).1.amounts k =
        amountFrom + (amountTo - amountFrom) * (1 - ((k : ℚ) + 1) / (n : ℚ))) ∧
    (getInverseTransformsBlur tf cToP pToC invert time amountFrom amountTo
        init initAmt n).1.amounts (n - 1) = amountFrom ∧
    (∀ k, k < n →
      (getInverseTransformsBlur tf cToP pToC invert time amountFrom amountTo
          init initAmt n).1.amounts k ≠ amountTo) := by
  have hmain := blur_foldl_success tf cToP pToC invert time amountFrom amountTo
    init initAmt n n hsucc
  dsimp only at hmain
  obtain ⟨hsz, hamt⟩ := hmain
  have hn0 : (n : ℚ) ≠ 0 := by
    exact_mod_cast Nat.one_le_iff_ne_zero.mp hn
  have hone : ∀ k, k < n →
      (getInverseTransformsBlur tf cToP pToC invert time amountFrom amountTo
          init initAmt n).1.amounts k =
        amountFrom + (amountTo - amountFrom) * (1 - ((k : ℚ) + 1) / (n : ℚ)) := by
    intro k hk
    have := hamt k hk
    unfold getInverseTransformsBlur
    dsimp only
    rw [this]
    rfl
  refine ⟨by unfold getInverseTransformsBlur; dsimp only; exact hsz, hone, ?_, ?_⟩
  · rw [hone (n - 1) (Nat.sub_lt (Nat.lt_of_lt_of_le Nat.zero_lt_one hn) Nat.one_pos)]
    have hcast : ((n - 1 : ℕ) : ℚ) + 1 = (n : ℚ) := by
      rw [Nat.cast_sub hn, Nat.cast_one]
      ring
    rw [hcast, div_self hn0]
    ring
  · intro k hk heq
    rw [hone k hk] at heq
    have hpos : 0 < ((k : ℚ) + 1) / (n : ℚ) := by
      apply div_pos
      · positivity
      · exact_mod_cast Nat.lt_of_lt_of_le Nat.zero_lt_one hn
    have : (amountTo - amountFrom) * (((k : ℚ) + 1) / (n : ℚ)) = 0 := by linarith
    rcases mul_eq_zero.mp this with h | h
    · exact hne (by linarith)
    · exact absurd h hpos.ne'

/-- C4 witness: capacity 2 with an always-succeeding callback and amount
range [0, 1]: both samples are produced and the recorded raw amounts are
1/2 and 0 — the last one is `amountFrom` itself. -/
theorem C4_dirblur_spacing_witness :
    ((1:ℕ) ≤ 2 ∧ (0:ℚ) ≠ 1) ∧
    (getInverseTransformsBlur (fun _ _ _ => some dummyMatrix) idMat idMat false 0 0 1
        (fun _ => dummyMatrix) (fun _ => 0) 2).1.sz = 2 ∧
    (getInverseTransformsBlur (fun _ _ _ => some dummyMatrix) idMat idMat false 0 0 1
        (fun _ => dummyMatrix) (fun _ => 0) 2).1.amounts 0 = 1/2 ∧
    (getInverseTransformsBlur (fun _ _ _ => some dummyMatrix) idMat idMat false 0 0 1
        (fun _ => dummyMatrix) (fun _ => 0) 2).1.amounts 1 = 0 := by
  obtain ⟨hsz, hamt, hlast, -⟩ := C4_dirblur_spacing (fun _ _ _ => some dummyMatrix)
    idMat idMat false 0 0 1 (fun _ => dummyMatrix) (fun _ => 0) 2
    (by norm_num) (fun j _ => rfl) (by norm_num)
  refine ⟨⟨by norm_num, by norm_num⟩, hsz, ?_, ?_⟩
  · rw [hamt 0 (by norm_num)]; norm_num
  · have := hlast
    norm_num at this
    exact this

/-- C4 counterexample: with the render path's allocation capacity of 1000
and an always-succeeding callback on the amount range [0, 1], the sampler
runs 1000 iterations (not 8) and the raw amount recorded at the final
iteration is 0 = amountFrom — the spacing does not omit `amountFrom`. -/
theorem C4_dirblur_spacing_counterexample :
    (getInverseTransformsBlur (fun _ _ _ => some dummyMatrix) idMat idMat false 0 0 1
        (fun _ => dummyMatrix) (fun _ => 0) 1000).1.sz = 1000 ∧
    (getInverseTransformsBlur (fun _ _ _ => some dummyMatrix) idMat idMat false 0 0 1
        (fun _ => dummyMatrix) (fun _ => 0) 1000).1.amounts 999 = 0 := by
  have hmain := blur_foldl_success (fun _ _ _ => some dummyMatrix) idMat idMat false 0 0 1
    (fun _ => dummyMatrix) (fun _ => 0) 1000 1000 (fun j _ => rfl)
  dsimp only at hmain
  obtain ⟨hsz, hamt⟩ := hmain
  constructor
  · unfold getInverseTransformsBlur
    dsimp only
    exact hsz
  · unfold getInverseTransformsBlur
    dsimp only
    rw [hamt 999 (by norm_num)]
    norm_num [blurAmount]

/-- C3: the degenerate-collapse invariant fails in directional-blur mode
when a sample fails.  Capacity 3, callback failing at the first iteration
(raw amount 2/3) and returning the identity elsewhere, slot arrays
initialized with the dummy matrix: both produced samples equal the first
(both are the identity), yet the returned size is 2, not 1 — because the
`allequal` update at line 1136 compares `invtransform[i]` (the loop index)
instead of the slot just written, reading a never-written slot. -/
theorem C3_collapse_bug_eval :
    (getInverseTransformsBlur
        (fun _ a _ => if a = (2/3 : ℚ) then none else some idMat) idMat idMat false
        0 0 1 (fun _ => dummyMatrix) (fun _ => 0) 3).2 = 2 ∧
    blurProduced (getInverseTransformsBlur
        (fun _ a _ => if a = (2/3 : ℚ) then none else some idMat) idMat idMat false
        0 0 1 (fun _ => dummyMatrix) (fun _ => 0) 3).1 = [idMat, idMat] := by
  have hS : (idMat.mul idMat).mul idMat = idMat := by norm_num [Matrix3x3.mul, idMat]
  have hdne : dummyMatrix ≠ idMat := by
    intro h
    have := congrArg Matrix3x3.a h
    norm_num [dummyMatrix, idMat] at this
  have ha0 : blurAmount 0 1 3 0 = 2/3 := by norm_num [blurAmount]
  have ha1 : blurAmount 0 1 3 1 = 1/3 := by norm_num [blurAmount]
  have ha2 : blurAmount 0 1 3 2 = 0 := by norm_num [blurAmount]
  have h0 : blurStep (fun _ a _ => if a = (2/3 : ℚ) then none else some idMat)
      idMat idMat false 0 0 1 3 ⟨fun _ => dummyMatrix, fun _ => 0, 0, true⟩ 0 =
      ⟨fun _ => dummyMatrix, fun _ => 0, 0, true⟩ := by
    unfold blurStep
    rw [ha0]
    simp
  have h1 : blurStep (fun _ a _ => if a = (2/3 : ℚ) then none else some idMat)
      idMat idMat false 0 0 1 3 ⟨fun _ => dummyMatrix, fun _ => 0, 0, true⟩ 1 =
      ⟨Function.update (fun _ => dummyMatrix) 0 idMat,
       Function.update (fun _ => (0:ℚ)) 0 (1/3), 1, false⟩ := by
    unfold blurStep
    rw [ha1]
    dsimp only
    rw [if_neg (by norm_num : ¬ (1/3 : ℚ) = 2/3)]
    dsimp only
    rw [hS]
    have hcond : Function.update (fun _ => dummyMatrix) 0 idMat 1 = dummyMatrix :=
      Function.update_noteq (by norm_num) _ _
    have hcond0 : Function.update (fun _ => dummyMatrix) 0 idMat 0 = idMat :=
      Function.update_same _ _ _
    simp only [hcond, hcond0]
    rw [if_neg hdne]
  have h2 : blurStep (fun _ a _ => if a = (2/3 : ℚ) then none else some idMat)
      idMat idMat false 0 0 1 3
      ⟨Function.update (fun _ => dummyMatrix) 0 idMat,
       Function.update (fun _ => (0:ℚ)) 0 (1/3), 1, false⟩ 2 =
      ⟨Function.update (Function.update (fun _ => dummyMatrix) 0 idMat) 1 idMat,
       Function.update (Function.update (fun _ => (0:ℚ)) 0 (1/3)) 1 0, 2, false⟩ := by
    unfold blurStep
    rw [ha2]
    dsimp only
    rw [if_neg (by norm_num : ¬ (0 : ℚ) = 2/3)]
    dsimp only
    rw [hS]
    simp [ite_self]
  have hr : List.range 3 = [0, 1, 2] := rfl
  unfold getInverseTransformsBlur
  rw [hr]
  simp only [List.foldl_cons, List.foldl_nil]
  rw [h0, h1, h2]
  constructor
  · simp
  · have hr2 : List.range 2 = [0, 1] := rfl
    unfold blurProduced
    dsimp only
    rw [hr2]
    simp only [List.map_cons, List.map_nil]
    rw [Function.update_noteq (by norm_num : (0:ℕ) ≠ 1), Function.update_same,
        Function.update_same]

/-! ### Region propagator: Transform3x3Plugin::transformRegion, lines 450-568

`OFX::shutterRange` (ofxsShutter, outside the provided sources) only
derives the interval `[range.min, range.max]`, so the model takes
`rmin`/`rmax` directly. -/

/-- Modelled from the spec (§4.4): the standard rectangle-union rule
(`OFX::Coords::rectBoundingBox`, ofxsCoords.h, outside the provided
sources). -/
def rectBoundingBox (r1 r2 : OfxRectD) : OfxRectD :=
  ⟨min r1.x1 r2.x1, min r1.y1 r2.y1, max r1.x2 r2.x2, max r1.y2 r2.y2⟩

/-- The reversed "super-empty" initial accumulator (lines 485-488). -/
def emptyInitRect : OfxRectD :=
  ⟨kOfxFlagInfiniteMax, kOfxFlagInfiniteMax, kOfxFlagInfiniteMin, kOfxFlagInfiniteMin⟩

/-- The eight sequential `expand = max(expand, |·|)` updates of one loop
iteration (lines 522-529), in source order: x then y for each corner. -/
def cornerExpand (e : ℚ) (q p : Corners) : ℚ :=
  max (max (max (max (max (max (max (max e
    |q.p0.x - p.p0.x|) |q.p0.y - p.p0.y|)
    |q.p1.x - p.p1.x|) |q.p1.y - p.p1.y|)
    |q.p2.x - p.p2.x|) |q.p2.y - p.p2.y|)
    |q.p3.x - p.p3.x|) |q.p3.y - p.p3.y|

/-- The component-wise (L-infinity) displacement between two corner
quadruples: the maximum of the eight coordinate differences. -/
def dispInf (q p : Corners) : ℚ :=
  max (max (max (max (max (max (max
    |q.p0.x - p.p0.x| |q.p0.y - p.p0.y|)
    |q.p1.x - p.p1.x|) |q.p1.y - p.p1.y|)
    |q.p2.x - p.p2.x|) |q.p2.y - p.p2.y|)
    |q.p3.x - p.p3.x|) |q.p3.y - p.p3.y|

theorem cornerExpand_eq_max (e : ℚ) (q p : Corners) :
    cornerExpand e q p = max e (dispInf q p) := by
  unfold cornerExpand dispInf
  simp only [max_assoc]

/-- `t = std::floor(t * 4 + 1) / 4` (line 546): the next quarter-frame. -/
def nextQuarter (t : ℚ) : ℚ := ((⌊t * 4 + 1⌋ : ℤ) : ℚ) / 4

theorem floor_nextQuarter (t : ℚ) : ⌊nextQuarter t * 4⌋ = ⌊t * 4⌋ + 1 := by
  unfold nextQuarter
  rw [div_mul_cancel₀ _ (by norm_num : (4:ℚ) ≠ 0), Int.floor_intCast]
  exact Int.floor_add_one _

/-- The times visited by the shutter walk after the first iteration
(lines 545-551): advance to the next quarter-frame; as soon as it reaches
or passes `range.max`, clamp to `range.max` and make that the final
iteration. -/
def quarterSuccTimes (rmax : ℚ) (t : ℚ) : List ℚ :=
  if rmax ≤ nextQuarter t then [rmax]
  else nextQuarter t :: quarterSuccTimes rmax (nextQuarter t)
termination_by (⌊rmax * 4⌋ + 1 - ⌊t * 4⌋).toNat
decreasing_by
  have h1 : ⌊nextQuarter t * 4⌋ = ⌊t * 4⌋ + 1 := floor_nextQuarter t
  have h2 : ⌊nextQuarter t * 4⌋ ≤ ⌊rmax * 4⌋ :=
    Int.floor_le_floor (by nlinarith [lt_of_not_le (by assumption : ¬ rmax ≤ nextQuarter t)])
  omega

/-- The full list of times the shutter-mode walk visits: the first
iteration at `range.min` (line 489), then the quarter-frame steps. -/
def shutterWalkTimes (rmin rmax : ℚ) : List ℚ :=
  rmin :: quarterSuccTimes rmax rmin

/-- The amounts visited by the directional-blur walk (lines 494-495,
540-544): the first iteration at amount 1, then 8 more iterations at
`1 - dirBlurIter/8`, `dirBlurIter = 1..8`, the last one at amount 0. -/
def dirBlurWalkAmounts : List ℚ :=
  1 :: (List.range 8).map (fun (j : ℕ) => 1 - ((j : ℚ) + 1) / 8)

/-- `hasmotionblur` (line 470). -/
def hasMotionBlur (shutter : ℚ) (directionalBlur : Bool) (motionblur : ℚ) : Prop :=
  (shutter ≠ 0 ∨ directionalBlur = true) ∧ motionblur ≠ 0

instance (shutter : ℚ) (directionalBlur : Bool) (motionblur : ℚ) :
    Decidable (hasMotionBlur shutter directionalBlur motionblur) := by
  unfold hasMotionBlur; infer_instance

/-- The (time, loop-amount) pairs visited by the `transformRegion` walk, in
order (lines 469-553).  The sequence is fixed up front: the loop control
never depends on a callback result.  Without motion blur the walk is the
single iteration at the frame time; in directional-blur mode the time
stays `range.min = range.max = time` while the amount steps; in shutter
mode the amount stays 1 while the time steps. -/
def transformRegionParams (time : ℚ) (motionblur : ℚ) (directionalBlur : Bool)
    (shutter : ℚ) (rmin rmax : ℚ) : List (ℚ × ℚ) :=
  if hasMotionBlur shutter directionalBlur motionblur then
    if directionalBlur then dirBlurWalkAmounts.map (fun a => (time, a))
    else (shutterWalkTimes rmin rmax).map (fun t => (t, 1))
  else [(time, 1)]

/-- The body of the `transformRegion` while loop (lines 497-554), walking
the parameter list: at each step evaluate the callback at
`amountFrom + amount * (amountTo - amountFrom)` (line 501); a failure
aborts the whole walk (lines 502-510); otherwise project the corners,
union the running rectangle (lines 511-515) and, from the second
iteration on, fold the corner displacement into `expand`
(lines 517-530). -/
def regionWalk (tf : ℚ → ℚ → Bool → Option Matrix3x3) (invert : Bool)
    (amountFrom amountTo : ℚ) (rectFrom : OfxRectD) :
    List (ℚ × ℚ) → OfxRectD → ℚ → Option Corners → Option (OfxRectD × ℚ)
  | [], acc, expand, _ => some (acc, expand)
  | (t, a) :: rest, acc, expand, pprev =>
    match tf t (amountFrom + a * (amountTo - amountFrom)) invert with
    | none => none
    | some M =>
      let p := transformedCorners rectFrom M
      let acc2 := rectBoundingBox acc (ofxsTransformRegionFromPoints p)
      let expand2 := match pprev with
        | none => expand
        | some q => cornerExpand expand q p
      regionWalk tf invert amountFrom amountTo rectFrom rest acc2 expand2 (some p)

/-- The final expansion (lines 556-567): each side strictly inside the
sentinel bounds moves outward by `expand`; sides at (or beyond) the
sentinel stay. -/
def expandRect (r : OfxRectD) (e : ℚ) : OfxRectD :=
  ⟨if kOfxFlagInfiniteMin < r.x1 then r.x1 - e else r.x1,
   if kOfxFlagInfiniteMin < r.y1 then r.y1 - e else r.y1,
   if r.x2 < kOfxFlagInfiniteMax then r.x2 + e else r.x2,
   if r.y2 < kOfxFlagInfiniteMax then r.y2 + e else r.y2⟩

/-- `Transform3x3Plugin::transformRegion` (lines 450-568).  The early
identity return (lines 472-482) fires exactly when shutter-based sampling
is not active (`!(hasmotionblur && !directionalBlur)`) and the effect
reports identity. -/
def transformRegion (rectFrom : OfxRectD) (time : ℚ) (invert : Bool)
    (motionblur : ℚ) (directionalBlur : Bool) (amountFrom amountTo : ℚ)
    (shutter : ℚ) (rmin rmax : ℚ) (isIdent : Bool)
    (tf : ℚ → ℚ → Bool → Option Matrix3x3) : OfxRectD :=
  if ¬ (hasMotionBlur shutter directionalBlur motionblur ∧ directionalBlur = false)
      ∧ isIdent = true then rectFrom
  else
    match regionWalk tf invert amountFrom amountTo rectFrom
        (transformRegionParams time motionblur directionalBlur shutter rmin rmax)
        emptyInitRect 0 none with
    | none => infiniteRectD
    | some (r, e) => expandRect r e

/-- The (time, evaluated amount, invert) triples `transformRegion` hands to
the per-effect callback, in walk order (none when the identity early
return fires). -/
def transformRegionCalls (time : ℚ) (invert : Bool) (motionblur : ℚ)
    (directionalBlur : Bool) (amountFrom amountTo : ℚ) (shutter : ℚ)
    (rmin rmax : ℚ) (isIdent : Bool) : List (ℚ × ℚ × Bool) :=
  if ¬ (hasMotionBlur shutter directionalBlur motionblur ∧ directionalBlur = false)
      ∧ isIdent = true then []
  else (transformRegionParams time motionblur directionalBlur shutter rmin rmax).map
    (fun pa => (pa.1, amountFrom + pa.2 * (amountTo - amountFrom), invert))

/-! ### Helper lemmas on the region walk -/

/-- A failure anywhere in the parameter list makes the walk fail. -/
theorem regionWalk_fail (tf : ℚ → ℚ → Bool → Option Matrix3x3) (invert : Bool)
    (amountFrom amountTo : ℚ) (rectFrom : OfxRectD) :
    ∀ (l : List (ℚ × ℚ)) (acc : OfxRectD) (e : ℚ) (pp : Option Corners),
      (∃ pa ∈ l, tf pa.1 (amountFrom + pa.2 * (amountTo - amountFrom)) invert = none) →
      regionWalk tf invert amountFrom amountTo rectFrom l acc e pp = none := by
  intro l
  induction l with
  | nil =>
    intro acc e pp h
    simp at h
  | cons pa rest ih =>
    intro acc e pp h
    obtain ⟨t, a⟩ := pa
    unfold regionWalk
    cases hc : tf t (amountFrom + a * (amountTo - amountFrom)) invert with
    | none => rfl
    | some M =>
      dsimp only
      apply ih
      rcases h with ⟨pb, hpb, hfail⟩
      rcases List.mem_cons.mp hpb with hpb' | hpb'
      · exfalso
        rw [hpb'] at hfail
        rw [hfail] at hc
        exact Option.noConfusion hc
      · exact ⟨pb, hpb', hfail⟩

/-- C6: if the callback fails at any sampled (time, amount) of the region
walk (the identity early return not applying), the whole region result is
the sentinel unbounded rectangle — never a partial box from the samples
that succeeded first. -/
theorem C6_failure_infinite_region (rectFrom : OfxRectD) (time : ℚ) (invert : Bool)
    (motionblur : ℚ) (directionalBlur : Bool) (amountFrom amountTo : ℚ)
    (shutter : ℚ) (rmin rmax : ℚ) (isIdent : Bool)
    (tf : ℚ → ℚ → Bool → Option Matrix3x3)
    (hni : ¬ (¬ (hasMotionBlur shutter directionalBlur motionblur ∧
        directionalBlur = false) ∧ isIdent = true))
    (hfail : ∃ pa ∈ transformRegionParams time motionblur directionalBlur shutter rmin rmax,
      tf pa.1 (amountFrom + pa.2 * (amountTo - amountFrom)) invert = none) :
    transformRegion rectFrom time invert motionblur directionalBlur amountFrom amountTo
      shutter rmin rmax isIdent tf = infiniteRectD := by
  unfold transformRegion
  rw [if_neg hni, regionWalk_fail tf invert amountFrom amountTo rectFrom _ _ _ _ hfail]

/-- C6 witness: single-sample walk (no blur) with an always-failing
callback on a finite rectangle yields the sentinel unbounded rectangle. -/
theorem C6_failure_infinite_region_witness :
    (¬ (¬ (hasMotionBlur 0 false 0 ∧ false = false) ∧ false = true)) ∧
    (∃ pa ∈ transformRegionParams 0 0 false 0 0 0,
      (fun (_ : ℚ) (_ : ℚ) (_ : Bool) => (none : Option Matrix3x3))
        pa.1 (0 + pa.2 * (1 - 0)) false = none) ∧
    transformRegion ⟨0, 0, 1, 1⟩ 0 false 0 false 0 1 0 0 0 false
      (fun _ _ _ => none) = infiniteRectD := by
  have hni : ¬ (¬ (hasMotionBlur 0 false 0 ∧ false = false) ∧ false = true) := by
    simp
  have hfail : ∃ pa ∈ transformRegionParams 0 0 false 0 0 0,
      (fun (_ : ℚ) (_ : ℚ) (_ : Bool) => (none : Option Matrix3x3))
        pa.1 (0 + pa.2 * (1 - 0)) false = none := by
    refine ⟨(0, 1), ?_, rfl⟩
    simp [transformRegionParams, hasMotionBlur]
  exact ⟨hni, hfail,
    C6_failure_infinite_region ⟨0, 0, 1, 1⟩ 0 false 0 false 0 1 0 0 0 false _ hni hfail⟩

/-- C7: when the effect reports identity and shutter-based sampling is not
active, region propagation returns the input rectangle exactly — no corner
projection, no union, no expansion. -/
theorem C7_identity_passthrough (rectFrom : OfxRectD) (time : ℚ) (invert : Bool)
    (motionblur : ℚ) (directionalBlur : Bool) (amountFrom amountTo : ℚ)
    (shutter : ℚ) (rmin rmax : ℚ)
    (tf : ℚ → ℚ → Bool → Option Matrix3x3)
    (hnb : ¬ (hasMotionBlur shutter directionalBlur motionblur ∧ directionalBlur = false)) :
    transformRegion rectFrom time invert motionblur directionalBlur amountFrom amountTo
      shutter rmin rmax true tf = rectFrom := by
  unfold transformRegion
  rw [if_pos ⟨hnb, rfl⟩]

/-- C7 witness: identity reported, shutter 0 (no motion blur): the input
rectangle (1,2,3,4) comes back unchanged even under an always-failing
callback. -/
theorem C7_identity_passthrough_witness :
    (¬ (hasMotionBlur 0 false 0 ∧ false = false)) ∧
    transformRegion ⟨1, 2, 3, 4⟩ 0 false 0 false 0 1 0 0 0 true
      (fun _ _ _ => none) = ⟨1, 2, 3, 4⟩ := by
  have hnb : ¬ (hasMotionBlur 0 false 0 ∧ false = false) := by
    simp [hasMotionBlur]
  exact ⟨hnb, C7_identity_passthrough ⟨1, 2, 3, 4⟩ 0 false 0 false 0 1 0 0 0 _ hnb⟩

/-- The displacement fold mirroring the walk's `expand` / `p_prev` state
(skip the first iteration, then fold `cornerExpand` over consecutive
corner quadruples). -/
def expandFold : ℚ → Option Corners → List Corners → ℚ
  | e, _, [] => e
  | e, none, c :: cs => expandFold e (some c) cs
  | e, some q, c :: cs => expandFold (cornerExpand e q c) (some c) cs

theorem expandFold_some (cs : List Corners) : ∀ (e : ℚ) (q : Corners),
    expandFold e (some q) cs =
      (((q :: cs).zip cs).map (fun qp => dispInf qp.1 qp.2)).foldl max e := by
  induction cs with
  | nil => intro e q; rfl
  | cons c cs ih =>
    intro e q
    show expandFold (cornerExpand e q c) (some c) cs = _
    rw [ih, cornerExpand_eq_max]
    rfl

theorem expandFold_none (cs : List Corners) (e : ℚ) :
    expandFold e none cs =
      ((cs.zip cs.tail).map (fun qp => dispInf qp.1 qp.2)).foldl max e := by
  cases cs with
  | nil => rfl
  | cons c cs =>
    show expandFold e (some c) cs = _
    rw [expandFold_some]
    rfl

/-- When every callback call succeeds, the walk returns the union of the
per-step regions folded from the reversed-empty initial rectangle, and the
`expandFold` of the per-step corner quadruples. -/
theorem regionWalk_success (tf : ℚ → ℚ → Bool → Option Matrix3x3) (invert : Bool)
    (amountFrom amountTo : ℚ) (rectFrom : OfxRectD) (F : ℚ → ℚ → Matrix3x3)
    (htf : ∀ t a, tf t a invert = some (F t a)) :
    ∀ (l : List (ℚ × ℚ)) (acc : OfxRectD) (e : ℚ) (pp : Option Corners),
      regionWalk tf invert amountFrom amountTo rectFrom l acc e pp =
        some ((((l.map (fun pa => transformedCorners rectFrom
                  (F pa.1 (amountFrom + pa.2 * (amountTo - amountFrom))))).map
                ofxsTransformRegionFromPoints).foldl rectBoundingBox acc),
              expandFold e pp (l.map (fun pa => transformedCorners rectFrom
                (F pa.1 (amountFrom + pa.2 * (amountTo - amountFrom)))))) := by
  intro l
  induction l with
  | nil =>
    intro acc e pp
    simp only [regionWalk, List.map_nil, List.foldl_nil]
    cases pp <;> rfl
  | cons pa rest ih =>
    intro acc e pp
    obtain ⟨t, a⟩ := pa
    unfold regionWalk
    rw [htf t (amountFrom + a * (amountTo - amountFrom))]
    dsimp only
    rw [ih]
    rw [List.map_cons, List.map_cons, List.foldl_cons]
    cases pp with
    | none => rfl
    | some q => rfl

/-- C5: with every sample succeeding and the identity early return not
applying, region propagation returns the union of the per-step corner
regions expanded, on each side strictly inside the sentinel bounds, by
exactly the maximum L-infinity displacement between the corner quadruples
of consecutive steps; sides at (or beyond) the sentinel are unchanged. -/
theorem C5_region_expansion (rectFrom : OfxRectD) (time : ℚ) (invert : Bool)
    (motionblur : ℚ) (directionalBlur : Bool) (amountFrom amountTo : ℚ)
    (shutter : ℚ) (rmin rmax : ℚ) (isIdent : Bool)
    (tf : ℚ → ℚ → Bool → Option Matrix3x3) (F : ℚ → ℚ → Matrix3x3)
    (htf : ∀ t a, tf t a invert = some (F t a))
    (hni : ¬ (¬ (hasMotionBlur shutter directionalBlur motionblur ∧
        directionalBlur = false) ∧ isIdent = true)) :
    transformRegion rectFrom time invert motionblur directionalBlur amountFrom amountTo
        shutter rmin rmax isIdent tf =
      (let cs := (transformRegionParams time motionblur directionalBlur shutter rmin rmax).map
          (fun pa => transformedCorners rectFrom
            (F pa.1 (amountFrom + pa.2 * (amountTo - amountFrom))));
       let B := (cs.map ofxsTransformRegionFromPoints).foldl rectBoundingBox emptyInitRect;
       let E := ((cs.zip cs.tail).map (fun qp => dispInf qp.1 qp.2)).foldl max 0;
       (⟨if kOfxFlagInfiniteMin < B.x1 then B.x1 - E else B.x1,
         if kOfxFlagInfiniteMin < B.y1 then B.y1 - E else B.y1,
         if B.x2 < kOfxFlagInfiniteMax then B.x2 + E else B.x2,
         if B.y2 < kOfxFlagInfiniteMax then B.y2 + E else B.y2⟩ : OfxRectD)) := by
  unfold transformRegion
  rw [if_neg hni, regionWalk_success tf invert amountFrom amountTo rectFrom F htf]
  dsimp only
  rw [expandFold_none]
  rfl

/-- C5 witness: a pure translation by (1, 0) on the unit square, single
sample (no blur): the walk yields the translated square (1,0,2,1), the
displacement maximum is 0 and each finite side moves by exactly 0. -/
theorem C5_region_expansion_witness :
    (¬ (¬ (hasMotionBlur 0 false 0 ∧ false = false) ∧ false = true)) ∧
    transformRegion ⟨0, 0, 1, 1⟩ 0 false 0 false 0 1 0 0 0 false
      (fun _ _ _ => some ⟨1, 0, 1, 0, 1, 0, 0, 0, 1⟩) = ⟨1, 0, 2, 1⟩ := by
  have hni : ¬ (¬ (hasMotionBlur 0 false 0 ∧ false = false) ∧ false = true) := by simp
  refine ⟨hni, ?_⟩
  rw [C5_region_expansion ⟨0, 0, 1, 1⟩ 0 false 0 false 0 1 0 0 0 false
    (fun _ _ _ => some ⟨1, 0, 1, 0, 1, 0, 0, 0, 1⟩) (fun _ _ => ⟨1, 0, 1, 0, 1, 0, 0, 0, 1⟩)
    (fun _ _ => rfl) hni]
  have hps : transformRegionParams 0 0 false 0 0 0 = [(0, 1)] := by
    simp [transformRegionParams, hasMotionBlur]
  rw [hps]
  have hc : transformedCorners ⟨0, 0, 1, 1⟩ ⟨1, 0, 1, 0, 1, 0, 0, 0, 1⟩ =
      ⟨⟨1, 0, 1⟩, ⟨1, 1, 1⟩, ⟨2, 1, 1⟩, ⟨2, 0, 1⟩⟩ := by
    norm_num [transformedCorners, Matrix3x3.apply]
  have hr : ofxsTransformRegionFromPoints ⟨⟨1, 0, 1⟩, ⟨1, 1, 1⟩, ⟨2, 1, 1⟩, ⟨2, 0, 1⟩⟩ =
      ⟨1, 0, 2, 1⟩ := by
    rw [regionFromPoints_sameSign _ (Or.inl (by norm_num))]
    norm_num [min_def, max_def]
  simp only [List.map_cons, List.map_nil, hc, hr, List.foldl_cons, List.foldl_nil,
    List.zip_nil_right, List.tail_cons]
  norm_num [rectBoundingBox, emptyInitRect, kOfxFlagInfiniteMin, kOfxFlagInfiniteMax,
    min_def, max_def]

/-! ### The walk schedule (claim C8) -/

set_option maxHeartbeats 1600000 in
theorem quarterSuccTimes_eq_pos (rmax t : ℚ) (h : rmax ≤ nextQuarter t) :
    quarterSuccTimes rmax t = [rmax] := by
  rw [quarterSuccTimes]
  exact if_pos h

theorem quarterSuccTimes_eq_neg (rmax t : ℚ) (h : ¬ rmax ≤ nextQuarter t) :
    quarterSuccTimes rmax t = nextQuarter t :: quarterSuccTimes rmax (nextQuarter t) := by
  rw [quarterSuccTimes]
  exact if_neg h

theorem quarterSuccTimes_ne_nil (rmax t : ℚ) : quarterSuccTimes rmax t ≠ [] := by
  by_cases h : rmax ≤ nextQuarter t
  · rw [quarterSuccTimes_eq_pos rmax t h]
    simp
  · rw [quarterSuccTimes_eq_neg rmax t h]
    simp

/-- Each time of the walk follows from the previous one by the clamped
quarter-frame step. -/
theorem quarterSuccTimes_chain (rmax t : ℚ) :
    List.Chain' (fun u v => v = if rmax ≤ nextQuarter u then rmax else nextQuarter u)
      (t :: quarterSuccTimes rmax t) := by
  induction t using quarterSuccTimes.induct rmax with
  | case1 t h =>
    rw [quarterSuccTimes_eq_pos rmax t h]
    exact List.chain'_pair.mpr (by rw [if_pos h])
  | case2 t h ih =>
    rw [quarterSuccTimes_eq_neg rmax t h]
    rw [List.chain'_cons]
    exact ⟨by rw [if_neg h], ih⟩

theorem quarterSuccTimes_getLast (rmax t : ℚ) :
    (quarterSuccTimes rmax t).getLast? = some rmax := by
  induction t using quarterSuccTimes.induct rmax with
  | case1 t h =>
    rw [quarterSuccTimes_eq_pos rmax t h]
    rfl
  | case2 t h ih =>
    rw [quarterSuccTimes_eq_neg rmax t h]
    obtain ⟨c, cs, hcc⟩ := List.exists_cons_of_ne_nil (quarterSuccTimes_ne_nil rmax (nextQuarter t))
    rw [hcc, List.getLast?_cons_cons, ← hcc]
    exact ih

theorem shutterWalkTimes_getLast (rmin rmax : ℚ) :
    (shutterWalkTimes rmin rmax).getLast? = some rmax := by
  unfold shutterWalkTimes
  obtain ⟨c, cs, hcc⟩ := List.exists_cons_of_ne_nil (quarterSuccTimes_ne_nil rmax rmin)
  rw [hcc, List.getLast?_cons_cons, ← hcc]
  exact quarterSuccTimes_getLast rmax rmin

/-- C8 (amended): in shutter mode the walk starts at the shutter range
start, every following time is the next quarter-frame `⌊4t+1⌋/4` clamped to
the range end, the amount stays 1, and the final iteration is exactly at
the range end; in directional-blur mode the walk performs one iteration at
blend amount 1 followed by 8 fixed stepped iterations down to amount 0 —
9 loop iterations in all, not 8. -/
theorem C8_walk_schedule :
    (∀ time motionblur shutter rmin rmax : ℚ,
      hasMotionBlur shutter false motionblur →
      (transformRegionParams time motionblur false shutter rmin rmax).head? =
          some (rmin, 1) ∧
      (∀ pa ∈ transformRegionParams time motionblur false shutter rmin rmax, pa.2 = 1) ∧
      List.Chain' (fun u v => v.1 = if rmax ≤ nextQuarter u.1 then rmax else nextQuarter u.1)
        (transformRegionParams time motionblur false shutter rmin rmax) ∧
      (transformRegionParams time motionblur false shutter rmin rmax).getLast? =
          some (rmax, 1)) ∧
    (∀ time motionblur shutter rmin rmax : ℚ, motionblur ≠ 0 →
      transformRegionParams time motionblur true shutter rmin rmax =
        [(time, 1), (time, 7/8), (time, 3/4), (time, 5/8), (time, 1/2),
         (time, 3/8), (time, 1/4), (time, 1/8), (time, 0)] ∧
      (transformRegionParams time motionblur true shutter rmin rmax).length = 9) := by
  constructor
  · intro time motionblur shutter rmin rmax hmb
    have hps : transformRegionParams time motionblur false shutter rmin rmax =
        (shutterWalkTimes rmin rmax).map (fun t => (t, 1)) := by
      unfold transformRegionParams
      rw [if_pos hmb]
      rfl
    rw [hps]
    refine ⟨?_, ?_, ?_, ?_⟩
    · unfold shutterWalkTimes
      rfl
    · intro pa hpa
      obtain ⟨t, -, rfl⟩ := List.mem_map.mp hpa
      rfl
    · rw [List.chain'_map]
      exact quarterSuccTimes_chain rmax rmin
    · rw [List.getLast?_map, shutterWalkTimes_getLast]
      rfl
  · intro time motionblur shutter rmin rmax hmb
    have hps : transformRegionParams time motionblur true shutter rmin rmax =
        dirBlurWalkAmounts.map (fun a => (time, a)) := by
      unfold transformRegionParams
      rw [if_pos ⟨Or.inr rfl, hmb⟩]
      rfl
    have hda : dirBlurWalkAmounts = [1, 7/8, 3/4, 5/8, 1/2, 3/8, 1/4, 1/8, 0] := by
      have hr8 : List.range 8 = [0, 1, 2, 3, 4, 5, 6, 7] := rfl
      unfold dirBlurWalkAmounts
      rw [hr8]
      simp only [List.map_cons, List.map_nil]
      norm_num
    rw [hps, hda]
    constructor
    · simp only [List.map_cons, List.map_nil]
    · rw [List.length_map]
      rfl

/-- C8 witness: shutter range [0, 1/2] (shutter 1, blur strength 1): the
walk starts at 0 and ends exactly at 1/2; directional-blur mode with blur
strength 1: the nine sampled amounts, from 1 down to 0. -/
theorem C8_walk_schedule_witness :
    hasMotionBlur 1 false 1 ∧ ((1:ℚ) ≠ 0) ∧
    (transformRegionParams 0 1 false 1 0 (1/2)).head? = some (0, 1) ∧
    (transformRegionParams 0 1 false 1 0 (1/2)).getLast? = some (1/2, 1) ∧
    transformRegionParams 7 1 true 0 0 0 =
      [(7, 1), (7, 7/8), (7, 3/4), (7, 5/8), (7, 1/2),
       (7, 3/8), (7, 1/4), (7, 1/8), (7, 0)] := by
  have hmb : hasMotionBlur 1 false 1 := ⟨Or.inl (by norm_num), by norm_num⟩
  obtain ⟨hhead, -, -, hlast⟩ := C8_walk_schedule.1 0 1 1 0 (1/2) hmb
  obtain ⟨hlist, -⟩ := C8_walk_schedule.2 7 1 0 0 0 (by norm_num)
  exact ⟨hmb, by norm_num, hhead, hlast, hlist⟩

/-- C8 counterexample: the directional-blur walk of `transformRegion`
executes its loop body 9 times (initial amount-1 iteration plus 8 stepped
ones), not 8 as claimed. -/
theorem C8_walk_schedule_counterexample :
    (transformRegionParams 0 1 true 0 0 0).length = 9 ∧ (9 : ℕ) ≠ 8 := by
  constructor
  · have hps : transformRegionParams 0 1 true 0 0 0 =
        dirBlurWalkAmounts.map (fun a => ((0:ℚ), a)) := by
      unfold transformRegionParams
      rw [if_pos ⟨Or.inr rfl, by norm_num⟩]
      rfl
    rw [hps, List.length_map]
    unfold dirBlurWalkAmounts
    rw [List.length_cons, List.length_map, List.length_range]
  · decide

/-! ### The invert-flag conventions of the query paths (claim C9) -/

/-- Lines 606-641: `getRegionOfDefinition` negates the evaluated invert
parameter (line 610: `invert = !invert; // only for getRegionOfDefinition`)
before handing it, with the other evaluated parameter values, to
`transformRegion`. -/
def rodRegion (invertParam : Bool) (srcRoD : OfxRectD) (time motionblur : ℚ)
    (directionalBlur : Bool) (amountFrom amountTo shutter rmin rmax : ℚ)
    (isIdent : Bool) (tf : ℚ → ℚ → Bool → Option Matrix3x3) : OfxRectD :=
  transformRegion srcRoD time (!invertParam) motionblur directionalBlur
    amountFrom amountTo shutter rmin rmax isIdent tf

/-- Lines 693-725: `getRegionsOfInterest` hands the evaluated invert
parameter to `transformRegion` unnegated (the negation at line 697 is
commented out: `//invert = !invert; // only for getRegionOfDefinition`). -/
def roiRegion (invertParam : Bool) (roi : OfxRectD) (time motionblur : ℚ)
    (directionalBlur : Bool) (amountFrom amountTo shutter rmin rmax : ℚ)
    (isIdent : Bool) (tf : ℚ → ℚ → Bool → Option Matrix3x3) : OfxRectD :=
  transformRegion roi time invertParam motionblur directionalBlur
    amountFrom amountTo shutter rmin rmax isIdent tf

/-- The callback calls of the region-of-definition path. -/
def rodCalls (invertParam : Bool) (time motionblur : ℚ) (directionalBlur : Bool)
    (amountFrom amountTo shutter rmin rmax : ℚ) (isIdent : Bool) : List (ℚ × ℚ × Bool) :=
  transformRegionCalls time (!invertParam) motionblur directionalBlur
    amountFrom amountTo shutter rmin rmax isIdent

/-- The callback calls of the region-of-interest path. -/
def roiCalls (invertParam : Bool) (time motionblur : ℚ) (directionalBlur : Bool)
    (amountFrom amountTo shutter rmin rmax : ℚ) (isIdent : Bool) : List (ℚ × ℚ × Bool) :=
  transformRegionCalls time invertParam motionblur directionalBlur
    amountFrom amountTo shutter rmin rmax isIdent

theorem transformRegionCalls_flag (time : ℚ) (invert : Bool) (motionblur : ℚ)
    (directionalBlur : Bool) (amountFrom amountTo shutter rmin rmax : ℚ) (isIdent : Bool) :
    ∀ c ∈ transformRegionCalls time invert motionblur directionalBlur
        amountFrom amountTo shutter rmin rmax isIdent, c.2.2 = invert := by
  intro c hc
  unfold transformRegionCalls at hc
  split_ifs at hc
  · simp at hc
  · obtain ⟨pa, -, rfl⟩ := List.mem_map.mp hc
    rfl

/-- The walk consults the callback only at the listed (time, amount,
invert) triples: callbacks agreeing there walk identically. -/
theorem regionWalk_congr (tf1 tf2 : ℚ → ℚ → Bool → Option Matrix3x3) (invert : Bool)
    (amountFrom amountTo : ℚ) (rectFrom : OfxRectD) :
    ∀ (l : List (ℚ × ℚ)) (acc : OfxRectD) (e : ℚ) (pp : Option Corners),
      (∀ pa ∈ l, tf1 pa.1 (amountFrom + pa.2 * (amountTo - amountFrom)) invert =
        tf2 pa.1 (amountFrom + pa.2 * (amountTo - amountFrom)) invert) →
      regionWalk tf1 invert amountFrom amountTo rectFrom l acc e pp =
        regionWalk tf2 invert amountFrom amountTo rectFrom l acc e pp := by
  intro l
  induction l with
  | nil => intro acc e pp _; rfl
  | cons pa rest ih =>
    intro acc e pp h
    obtain ⟨t, a⟩ := pa
    unfold regionWalk
    rw [h (t, a) (List.mem_cons_self _ _)]
    cases tf2 t (amountFrom + a * (amountTo - amountFrom)) invert with
    | none => rfl
    | some M =>
      dsimp only
      exact ih _ _ _ (fun pb hpb => h pb (List.mem_cons_of_mem _ hpb))

theorem transformRegion_congr (rectFrom : OfxRectD) (time : ℚ) (invert : Bool)
    (motionblur : ℚ) (directionalBlur : Bool) (amountFrom amountTo shutter rmin rmax : ℚ)
    (isIdent : Bool) (tf1 tf2 : ℚ → ℚ → Bool → Option Matrix3x3)
    (h : ∀ c ∈ transformRegionCalls time invert motionblur directionalBlur
        amountFrom amountTo shutter rmin rmax isIdent,
      tf1 c.1 c.2.1 c.2.2 = tf2 c.1 c.2.1 c.2.2) :
    transformRegion rectFrom time invert motionblur directionalBlur amountFrom amountTo
        shutter rmin rmax isIdent tf1 =
      transformRegion rectFrom time invert motionblur directionalBlur amountFrom amountTo
        shutter rmin rmax isIdent tf2 := by
  unfold transformRegion
  by_cases hcond : ¬ (hasMotionBlur shutter directionalBlur motionblur ∧
      directionalBlur = false) ∧ isIdent = true
  · rw [if_pos hcond, if_pos hcond]
  · rw [if_neg hcond, if_neg hcond,
      regionWalk_congr tf1 tf2 invert amountFrom amountTo rectFrom _ _ _ _ ?_]
    intro pa hpa
    refine h (pa.1, amountFrom + pa.2 * (amountTo - amountFrom), invert) ?_
    unfold transformRegionCalls
    rw [if_neg hcond]
    exact List.mem_map.mpr ⟨pa, hpa, rfl⟩

/-- Line 277: `setupAndProcess` hands the evaluated invert parameter to the
shutter sampler unnegated. -/
def renderInverseTransforms (invertParam : Bool) (tf : ℚ → ℚ → Bool → Option Matrix3x3)
    (cToP pToC : Matrix3x3) (tStart tEnd : ℚ) (n : ℕ) : List Matrix3x3 × ℕ :=
  getInverseTransforms tf cToP pToC invertParam tStart tEnd n

/-- The callback calls of the shutter sampler in the render path. -/
def renderCalls (invertParam : Bool) (tStart tEnd : ℚ) (n : ℕ) : List (ℚ × ℚ × Bool) :=
  (List.range n).map (fun k => (shutterSampleTime tStart tEnd n k, 1, invertParam))

theorem getInverseTransforms_congr (tf1 tf2 : ℚ → ℚ → Bool → Option Matrix3x3)
    (cToP pToC : Matrix3x3) (invert : Bool) (tStart tEnd : ℚ) (n : ℕ)
    (h : ∀ k, k < n → tf1 (shutterSampleTime tStart tEnd n k) 1 invert =
        tf2 (shutterSampleTime tStart tEnd n k) 1 invert) :
    getInverseTransforms tf1 cToP pToC invert tStart tEnd n =
      getInverseTransforms tf2 cToP pToC invert tStart tEnd n := by
  have hs : ∀ k, k < n → shutterSample tf1 cToP pToC invert tStart tEnd n k =
      shutterSample tf2 cToP pToC invert tStart tEnd n k := by
    intro k hk
    unfold shutterSample
    rw [h k hk]
  unfold getInverseTransforms
  have h1 : (List.range n).map (shutterSample tf1 cToP pToC invert tStart tEnd n) =
      (List.range n).map (shutterSample tf2 cToP pToC invert tStart tEnd n) :=
    List.map_congr_left (fun k hk => hs k (List.mem_range.mp hk))
  have h2 : (if ∀ k, k < n → shutterSample tf1 cToP pToC invert tStart tEnd n k =
        shutterSample tf1 cToP pToC invert tStart tEnd n 0 then 1 else n) =
      (if ∀ k, k < n → shutterSample tf2 cToP pToC invert tStart tEnd n k =
        shutterSample tf2 cToP pToC invert tStart tEnd n 0 then 1 else n) := by
    refine if_congr ⟨?_, ?_⟩ rfl rfl
    · intro hall k hk
      rw [← hs k hk, hall k hk, hs 0 (Nat.zero_lt_of_lt hk)]
    · intro hall k hk
      rw [hs k hk, hall k hk, ← hs 0 (Nat.zero_lt_of_lt hk)]
  rw [h1, h2]

/-- C9: the region-of-definition path negates the evaluated invert flag, so
every callback call it makes carries `!invert`, while the
region-of-interest path and the render path's sampler hand the flag
unnegated; for any fixed parameter value the rod calls and the roi calls
give the callback opposite booleans, and each path's result depends on the
callback only through its listed calls. -/
theorem C9_invert_conventions (invertParam : Bool) (time motionblur : ℚ)
    (directionalBlur : Bool) (amountFrom amountTo shutter rmin rmax : ℚ)
    (isIdent : Bool) :
    (∀ c ∈ rodCalls invertParam time motionblur directionalBlur amountFrom amountTo
        shutter rmin rmax isIdent, c.2.2 = !invertParam) ∧
    (∀ c ∈ roiCalls invertParam time motionblur directionalBlur amountFrom amountTo
        shutter rmin rmax isIdent, c.2.2 = invertParam) ∧
    (∀ c1 ∈ rodCalls invertParam time motionblur directionalBlur amountFrom amountTo
        shutter rmin rmax isIdent,
      ∀ c2 ∈ roiCalls invertParam time motionblur directionalBlur amountFrom amountTo
        shutter rmin rmax isIdent, c1.2.2 = !c2.2.2) ∧
    (∀ (srcRoD : OfxRectD) (tf1 tf2 : ℚ → ℚ → Bool → Option Matrix3x3),
      (∀ c ∈ rodCalls invertParam time motionblur directionalBlur amountFrom amountTo
          shutter rmin rmax isIdent, tf1 c.1 c.2.1 c.2.2 = tf2 c.1 c.2.1 c.2.2) →
      rodRegion invertParam srcRoD time motionblur directionalBlur amountFrom amountTo
          shutter rmin rmax isIdent tf1 =
        rodRegion invertParam srcRoD time motionblur directionalBlur amountFrom amountTo
          shutter rmin rmax isIdent tf2) ∧
    (∀ (roi : OfxRectD) (tf1 tf2 : ℚ → ℚ → Bool → Option Matrix3x3),
      (∀ c ∈ roiCalls invertParam time motionblur directionalBlur amountFrom amountTo
          shutter rmin rmax isIdent, tf1 c.1 c.2.1 c.2.2 = tf2 c.1 c.2.1 c.2.2) →
      roiRegion invertParam roi time motionblur directionalBlur amountFrom amountTo
          shutter rmin rmax isIdent tf1 =
        roiRegion invertParam roi time motionblur directionalBlur amountFrom amountTo
          shutter rmin rmax isIdent tf2) ∧
    (∀ (tStart tEnd : ℚ) (n : ℕ),
      ∀ c ∈ renderCalls invertParam tStart tEnd n, c.2.2 = invertParam) ∧
    (∀ (tStart tEnd : ℚ) (n : ℕ) (cToP pToC : Matrix3x3)
        (tf1 tf2 : ℚ → ℚ → Bool → Option Matrix3x3),
      (∀ c ∈ renderCalls invertParam tStart tEnd n,
        tf1 c.1 c.2.1 c.2.2 = tf2 c.1 c.2.1 c.2.2) →
      renderInverseTransforms invertParam tf1 cToP pToC tStart tEnd n =
        renderInverseTransforms invertParam tf2 cToP pToC tStart tEnd n) := by
  refine ⟨?_, ?_, ?_, ?_, ?_, ?_, ?_⟩
  · exact transformRegionCalls_flag time (!invertParam) motionblur directionalBlur
      amountFrom amountTo shutter rmin rmax isIdent
  · exact transformRegionCalls_flag time invertParam motionblur directionalBlur
      amountFrom amountTo shutter rmin rmax isIdent
  · intro c1 hc1 c2 hc2
    rw [transformRegionCalls_flag time (!invertParam) motionblur directionalBlur
        amountFrom amountTo shutter rmin rmax isIdent c1 hc1,
      transformRegionCalls_flag time invertParam motionblur directionalBlur
        amountFrom amountTo shutter rmin rmax isIdent c2 hc2]
  · intro srcRoD tf1 tf2 h
    exact transformRegion_congr srcRoD time (!invertParam) motionblur directionalBlur
      amountFrom amountTo shutter rmin rmax isIdent tf1 tf2 h
  · intro roi tf1 tf2 h
    exact transformRegion_congr roi time invertParam motionblur directionalBlur
      amountFrom amountTo shutter rmin rmax isIdent tf1 tf2 h
  · intro tStart tEnd n c hc
    obtain ⟨k, -, rfl⟩ := List.mem_map.mp hc
    rfl
  · intro tStart tEnd n cToP pToC tf1 tf2 h
    unfold renderInverseTransforms
    exact getInverseTransforms_congr tf1 tf2 cToP pToC invertParam tStart tEnd n
      (fun k hk => h (shutterSampleTime tStart tEnd n k, 1, invertParam)
        (List.mem_map.mpr ⟨k, List.mem_range.mpr hk, rfl⟩))

/-- C9 witness: with invert evaluated to false and a single-sample walk,
the region-of-definition path calls the callback with true and the
region-of-interest path with false: opposite flags at the same (time,
amount). -/
theorem C9_invert_conventions_witness :
    (((0:ℚ), (1:ℚ), true) ∈ rodCalls false 0 0 false 0 1 0 0 0 false) ∧
    (((0:ℚ), (1:ℚ), false) ∈ roiCalls false 0 0 false 0 1 0 0 0 false) ∧
    true = !false := by
  have hparams : transformRegionParams 0 0 false 0 0 0 = [(0, 1)] := by
    simp [transformRegionParams, hasMotionBlur]
  have hm1 : (((0:ℚ), (1:ℚ), true) ∈ rodCalls false 0 0 false 0 1 0 0 0 false) := by
    unfold rodCalls transformRegionCalls
    rw [if_neg (by simp), hparams]
    simp only [List.map_cons, List.map_nil]
    norm_num
  have hm2 : (((0:ℚ), (1:ℚ), false) ∈ roiCalls false 0 0 false 0 1 0 0 0 false) := by
    unfold roiCalls transformRegionCalls
    rw [if_neg (by simp), hparams]
    simp only [List.map_cons, List.map_nil]
    norm_num
  exact ⟨hm1, hm2,
    (C9_invert_conventions false 0 0 false 0 1 0 0 0 false).2.2.1 _ hm1 _ hm2⟩

end Transform3x3
